import Mathlib

/-
Verification of the span-overlay engine of page2tei.py: the PAGE custom
annotation mini-language parser (parse_bool, parse_int, parse_custom_ops)
and the inline TEI overlay builder (slice_text_nodes, append_text,
build_styled_nodes, the per-kind element builders, and
build_inline_nodes_for_line).  The Python functions are embedded as total
Lean functions; XML elements are modelled by an explicit tree type with
ElementTree's text/tail slots.
-/

/-- Value of the end slot of an op dict.  Normally it is the integer
offset + length, but a literal end:...; pair in a span body overwrites the
slot with the raw string, since in the source every slot lives in one
untyped Python dict. -/
inductive PyV where
  | i (n : Int)
  | s (v : String)
deriving Repr, DecidableEq

/-- One parsed span (one op dict built by parse_custom_ops): kind, offset,
length, end, and the remaining key/value attributes of the body. -/
structure Span where
  kind : String
  offset : Int
  length : Int
  end_ : PyV
  attrs : List (String × String)
deriving Repr, DecidableEq

/-- Reading of the end slot as an integer.  On a string-overwritten slot
every arithmetic use in the source would raise TypeError; the total model
reads 0 there, and the theorems about the builder either are independent of
the value or assume an integer slot. -/
def Span.endI (sp : Span) : Int :=
  match sp.end_ with
  | .i n => n
  | .s _ => 0

/-- ASCII model of the regex class \w (the source, using Python str
patterns, would also accept non-ASCII word characters). -/
def isWordChar (c : Char) : Bool :=
  c.isAlpha || c.isDigit || c = '_'

/-- ASCII model of the regex class \s and of str.strip whitespace. -/
def isSpaceChar (c : Char) : Bool :=
  c = ' ' || c = '\t' || c = '\n' || c = '\r' || c = '\x0b' || c = '\x0c'

/-- Characters of a string with leading and trailing whitespace removed,
as Python str.strip does. -/
def pyStripChars (cs : List Char) : List Char :=
  ((cs.dropWhile isSpaceChar).reverse.dropWhile isSpaceChar).reverse

/-- ASCII lower-casing, as Python str.lower on the inputs at hand. -/
def asciiLower (c : Char) : Char :=
  if 'A' ≤ c ∧ c ≤ 'Z' then Char.ofNat (c.toNat + 32) else c

/-- Source parse_bool: str(val).strip().lower() in ("1", "true", "yes", "y"). -/
def parseBool (val : String) : Bool :=
  let t := String.mk ((pyStripChars val.data).map asciiLower)
  t == "1" || t == "true" || t == "yes" || t == "y"

/-- Decimal value of a nonempty all-digit character list. -/
def digitsVal (cs : List Char) : Option Nat :=
  if !cs.isEmpty && cs.all Char.isDigit then
    some (cs.foldl (fun a c => a * 10 + (c.toNat - 48)) 0)
  else none

/-- Model of Python int(str): optional sign and decimal digits after
stripping surrounding whitespace (numeric underscores and non-ASCII digits
are not modelled); none models the ValueError branch. -/
def parseIntOpt (str : String) : Option Int :=
  match pyStripChars str.data with
  | '+' :: ds => (digitsVal ds).map fun n => (n : Int)
  | '-' :: ds => (digitsVal ds).map fun n => -(n : Int)
  | ds => (digitsVal ds).map fun n => (n : Int)

/-- Source parse_int: integer with fallback on any parse failure. -/
def parseInt (val : String) (dflt : Int) : Int :=
  (parseIntOpt val).getD dflt

/-- One attempt of the body regex (\w+)\s*:\s*([^;]+); at the head of cs.
On success it returns the key, the recorded value group(2).strip() (which,
accounting for the greedy \s* before the value, equals the stripped full
run of non-semicolon characters after the colon), and the rest of the
input after the terminating semicolon. -/
def tryMatchInner (cs : List Char) : Option (String × String × List Char) :=
  let w := cs.takeWhile isWordChar
  if w.isEmpty then none
  else
    match (cs.dropWhile isWordChar).dropWhile isSpaceChar with
    | ':' :: r3 =>
      let v := r3.takeWhile (fun c => c ≠ ';')
      (match r3.dropWhile (fun c => c ≠ ';') with
       | ';' :: rem =>
           if v.isEmpty then none
           else some (String.mk w, String.mk (pyStripChars v), rem)
       | _ => none)
    | _ => none

/-- re.finditer scanning for the body pattern: try a match at each position
left to right, advancing one character on failure and continuing after the
match on success.  The fuel argument, instantiated with the input length,
makes the recursion structural. -/
def innerScanF : Nat → List Char → List (String × String)
  | 0, _ => []
  | _ + 1, [] => []
  | fuel + 1, c :: rest =>
    match tryMatchInner (c :: rest) with
    | some (k, v, rem) => (k, v) :: innerScanF fuel rem
    | none => innerScanF fuel rest

/-- All key/value matches of a span body, in match order. -/
def kvMatches (body : String) : List (String × String) :=
  innerScanF body.data.length body.data

/-- Python dict assignment on an insertion-ordered association list:
overwriting a key keeps its original position. -/
def dictInsert : List (String × String) → String → String → List (String × String)
  | [], k, v => [(k, v)]
  | (k', v') :: rest, k, v =>
    if k' = k then (k, v) :: rest else (k', v') :: dictInsert rest k v

/-- The kv dict of a span body (later pairs with a repeated key overwrite
earlier ones). -/
def kvOf (body : String) : List (String × String) :=
  (kvMatches body).foldl (fun d p => dictInsert d p.1 p.2) []

/-- One attempt of the outer regex (\w+)\s*\{([^}]*)\} at the head of cs:
kind name, brace body, rest after the closing brace. -/
def tryMatchOuter (cs : List Char) : Option (String × String × List Char) :=
  let w := cs.takeWhile isWordChar
  if w.isEmpty then none
  else
    match (cs.dropWhile isWordChar).dropWhile isSpaceChar with
    | '{' :: r3 =>
      let b := r3.takeWhile (fun c => c ≠ '}')
      (match r3.dropWhile (fun c => c ≠ '}') with
       | '}' :: rem => some (String.mk w, String.mk b, rem)
       | _ => none)
    | _ => none

/-- re.finditer scanning for the outer pattern, with fuel as in innerScanF. -/
def outerScanF : Nat → List Char → List (String × String)
  | 0, _ => []
  | _ + 1, [] => []
  | fuel + 1, c :: rest =>
    match tryMatchOuter (c :: rest) with
    | some (k, b, rem) => (k, b) :: outerScanF fuel rem
    | none => outerScanF fuel rest

/-- All kind{body} matches of the custom string, in match order. -/
def parseMatches (customStr : String) : List (String × String) :=
  outerScanF customStr.data.length customStr.data

/-- The keys of the op dict that are not ordinary attributes; the fallback
builder skips exactly these. -/
def reservedKeys : List String := ["offset", "length", "kind", "end"]

/-- The five boolean textStyle attribute keys, in the source's fixed order. -/
def styleKeys : List String := ["bold", "italic", "underline", "superscript", "subscript"]

/-- Construct one op from a kind{body} match, mirroring the loop body of
parse_custom_ops: offset and length are parsed with fallback 0, end is
offset + length unless a literal end pair in the body overwrites the slot,
a literal kind pair overwrites the kind slot, every other pair becomes an
attribute, and for a textStyle match each of the five boolean keys present
is normalized to the literal "true" or "false" via parse_bool. -/
def buildOp (matchedKind : String) (body : String) : Span :=
  let kv := kvOf body
  let off := parseInt ((kv.lookup "offset").getD "0") 0
  let len := parseInt ((kv.lookup "length").getD "0") 0
  let kind := (kv.lookup "kind").getD matchedKind
  let endV : PyV :=
    match kv.lookup "end" with
    | some v => PyV.s v
    | none => PyV.i (off + len)
  let attrs0 := kv.filter fun p => !(reservedKeys.contains p.1)
  let attrs :=
    if matchedKind = "textStyle" then
      attrs0.map fun p =>
        if styleKeys.contains p.1 then
          (p.1, if parseBool p.2 then "true" else "false")
        else p
    else attrs0
  ⟨kind, off, len, endV, attrs⟩

/-- Source parse_custom_ops. -/
def parseCustomOps (customStr : String) : List Span :=
  (parseMatches customStr).map fun m => buildOp m.1 m.2

/-- An XML element as ElementTree sees it: tag, attributes, the text slot
(text before the first child), the tail slot (text after the element, owned
by the element itself), and the child list. -/
inductive Elem where
  | mk (tag : String) (attrs : List (String × String)) (text : Option String)
       (tail : Option String) (children : List Elem)

def Elem.tag : Elem → String
  | .mk tg _ _ _ _ => tg

def Elem.attrs : Elem → List (String × String)
  | .mk _ a _ _ _ => a

def Elem.text : Elem → Option String
  | .mk _ _ t _ _ => t

def Elem.tail : Elem → Option String
  | .mk _ _ _ tl _ => tl

def Elem.children : Elem → List Elem
  | .mk _ _ _ _ cs => cs

/-- ElementTree append / SubElement: add a child at the end. -/
def appendChild (parent : Elem) (child : Elem) : Elem :=
  match parent with
  | .mk tg a t tl cs => .mk tg a t tl (cs ++ [child])

/-- Replace an element's tail slot. -/
def setTail (e : Elem) (tl : Option String) : Elem :=
  match e with
  | .mk tg a t _ cs => .mk tg a t tl cs

/-- Append s to the tail of the last element of a child list, as in
last.tail = (last.tail or "") + s. -/
def addTailLast : List Elem → String → List Elem
  | [], _ => []
  | [Elem.mk tg a t tl cs], str => [Elem.mk tg a t (some (tl.getD "" ++ str)) cs]
  | c :: rest, str => c :: addTailLast rest str

/-- Source append_text: append text to an element, going to the text slot
when the element has neither text nor children, to the last child's tail
when children exist, and concatenating onto the text slot otherwise; the
empty string is a no-op. -/
def appendText (parent : Elem) (s : String) : Elem :=
  if s = "" then parent
  else
    match parent with
    | .mk tg a t tl cs =>
      if t.isNone && cs.isEmpty then .mk tg a (some s) tl cs
      else if !cs.isEmpty then .mk tg a t tl (addTailLast cs s)
      else .mk tg a (some (t.getD "" ++ s)) tl cs

/-- Clamp an index into [0, len], as in max(0, min(len(text), i)). -/
def clampIdx (i : Int) (len : Nat) : Nat :=
  (max 0 (min (len : Int) i)).toNat

/-- List slice text[a:b] for natural indices (Python clamps both ends to
the length and yields the empty list when a is not below b). -/
def sliceNat (cs : List Char) (a b : Nat) : List Char :=
  (cs.take b).drop a

/-- Python slice text[a:b] for integer indices.  A negative index would
wrap around in Python; every slicing site of the source reaches this only
with nonnegative values (the cursor starts at 0 and only advances past
selected wrappers), so the model clamps at 0. -/
def pySlice (cs : List Char) (a b : Int) : List Char :=
  sliceNat cs a.toNat b.toNat

/-- The label set of one segment of slice_text_nodes: the labels of the
ranges with ss <= s and e <= ee and ss < ee.  A Python set of strings,
modelled as a deduplicated list (only membership and the sorted view are
consumed). -/
def labelSet (ranges : List (Int × Int × String)) (s e : Nat) : List String :=
  ((ranges.filter fun r =>
      decide (r.1 ≤ (s : Int)) && decide ((e : Int) ≤ r.2.1) && decide (r.1 < r.2.1)).map
    fun r => r.2.2).dedup

/-- Consecutive pairs of a list, as in the index loop over cuts. -/
def consecPairs : List Nat → List (Nat × Nat)
  | a :: b :: rest => (a, b) :: consecPairs (b :: rest)
  | _ => []

/-- One segment of slice_text_nodes between consecutive cuts: skipped when
empty, otherwise the covered slice together with its label set. -/
def segOf (text : List Char) (ranges : List (Int × Int × String)) (p : Nat × Nat) :
    Option (Nat × Nat × List Char × List String) :=
  if p.1 = p.2 then none
  else some (p.1, p.2, sliceNat text p.1 p.2, labelSet ranges p.1 p.2)

/-- Source slice_text_nodes: collect the cut points (0, the length, and the
clamped bounds of every range) as a sorted set, and emit each nonempty
segment between consecutive cuts together with its label set. -/
def sliceTextNodes (text : List Char) (ranges : List (Int × Int × String)) :
    List (Nat × Nat × List Char × List String) :=
  let cuts := List.insertionSort (· ≤ ·)
    ((0 :: text.length ::
       ranges.flatMap fun r => [clampIdx r.1 text.length, clampIdx r.2.1 text.length]).dedup)
  (consecPairs cuts).filterMap (segOf text ranges)

/-- The rend label list of one textStyle op: the keys among the five whose
attribute holds the literal "true", in the source's fixed order. -/
def rendOf (op : Span) : List String :=
  styleKeys.filter fun k => (op.attrs.lookup k).getD "false" == "true"

/-- The labelled ranges of build_styled_nodes: one (offset, end, joined
rend) triple per style op with at least one active label. -/
def styleRanges (styleOps : List Span) : List (Int × Int × String) :=
  styleOps.filterMap fun op =>
    let rend := rendOf op
    if rend.isEmpty then none
    else some (op.offset, op.endI, " ".intercalate rend)

/-- Lexicographic code-point comparison of character lists, as Python
compares strings in sorted(). -/
def strLexLeB : List Char → List Char → Bool
  | [], _ => true
  | _ :: _, [] => false
  | a :: as, b :: bs => if a = b then strLexLeB as bs else decide (a < b)

/-- Python string order as a decidable relation. -/
def pyStrLe (a b : String) : Prop := strLexLeB a.data b.data = true

instance : DecidableRel pyStrLe := fun a b => by
  unfold pyStrLe; infer_instance

/-- The per-segment action of build_styled_nodes: plain text when the label
set is empty, otherwise a childless hi element whose rend attribute joins
the sorted label set. -/
def styledStep (p : Elem) (seg : Nat × Nat × List Char × List String) : Elem :=
  if seg.2.2.2.isEmpty then appendText p (String.mk seg.2.2.1)
  else appendChild p
    (.mk "hi" [("rend", " ".intercalate (List.insertionSort pyStrLe seg.2.2.2))]
      (some (String.mk seg.2.2.1)) none [])

/-- Source build_styled_nodes. -/
def buildStyledNodes (parent : Elem) (text : String) (styleOps : List Span) : Elem :=
  if (styleRanges styleOps).isEmpty then appendText parent text
  else (sliceTextNodes text.data (styleRanges styleOps)).foldl styledStep parent

/-- The rebasing loop repeated in each builder: keep the style ops lying
inside [globalOffset, globalOffset + len(witness)] and shift their offset
and end into the wrapper's local frame.  (On a string end slot the
comparison in the source would raise; the model reads endI.) -/
def adjustStyles (innerStyleOps : List Span) (globalOffset : Int) (witnessLen : Nat) : List Span :=
  innerStyleOps.filterMap fun op =>
    if globalOffset ≤ op.offset ∧ op.endI ≤ globalOffset + (witnessLen : Int) then
      some ⟨op.kind, op.offset - globalOffset, op.length,
            PyV.i (op.endI - globalOffset), op.attrs⟩
    else none

/-- Python s or t for strings: t when s is empty. -/
def pyOr (s t : String) : String := if s = "" then t else s

/-- Source build_choice_with_styles: a two-alternative choice container.
For abbrev and sic the first alternative holds the styled witness and the
second the literal alternative text; for regularised the order is reversed
and the styling attaches to the second alternative. -/
def buildChoiceWithStyles (kind witnessText altText : String)
    (innerStyleOps : List Span) (globalOffset : Int) : Elem :=
  let tags : String × String × String × String :=
    if kind = "abbrev" then ("abbr", "expan", witnessText, altText)
    else if kind = "sic" then ("sic", "corr", witnessText, altText)
    else if kind = "regularised" then ("orig", "reg", altText, witnessText)
    else ("orig", "reg", witnessText, altText)
  let adjStyles := adjustStyles innerStyleOps globalOffset witnessText.length
  if kind = "regularised" then
    .mk "choice" [] none none
      [.mk tags.1 [] (some (pyOr tags.2.2.1 "")) none [],
       buildStyledNodes (.mk tags.2.1 [] none none []) tags.2.2.2 adjStyles]
  else
    .mk "choice" [] none none
      [buildStyledNodes (.mk tags.1 [] none none []) tags.2.2.1 adjStyles,
       .mk tags.2.1 [] (some (pyOr tags.2.2.2 "")) none []]

/-- Attribute list contributed by one optional op key. -/
def optAttr (attrs : List (String × String)) (k : String) : List (String × String) :=
  match attrs.lookup k with
  | some v => [(k, v)]
  | none => []

/-- Source build_num_with_styles. -/
def buildNumWithStyles (witnessText : String) (numOp : Span)
    (innerStyleOps : List Span) (globalOffset : Int) : Elem :=
  buildStyledNodes
    (.mk "num" (optAttr numOp.attrs "type" ++ optAttr numOp.attrs "value") none none [])
    witnessText (adjustStyles innerStyleOps globalOffset witnessText.length)

/-- Source build_persName: type attribute when present, and a ref attribute
derived from the wikiData identifier. -/
def buildPersName (witnessText : String) (personOp : Span)
    (innerStyleOps : List Span) (globalOffset : Int) : Elem :=
  let attrs := optAttr personOp.attrs "type" ++
    (match personOp.attrs.lookup "wikiData" with
     | some w => [("ref", "https://www.wikidata.org/wiki/" ++ w)]
     | none => [])
  buildStyledNodes (.mk "persName" attrs none none []) witnessText
    (adjustStyles innerStyleOps globalOffset witnessText.length)

/-- The four nestable place attributes, in the source's fixed order. -/
def placeAttrKeys : List String := ["country", "region", "settlement", "district"]

/-- Source build_placeName: one unstyled child per present nested
attribute, tracked by the has_nested flag; only when none is present is the
witness text added (styled). -/
def buildPlaceName (witnessText : String) (placeOp : Span)
    (innerStyleOps : List Span) (globalOffset : Int) : Elem :=
  let res := placeAttrKeys.foldl
    (fun (acc : Elem × Bool) a =>
      match placeOp.attrs.lookup a with
      | some v => (appendChild acc.1 (.mk a [] (some v) none []), true)
      | none => acc)
    (Elem.mk "placeName" [] none none [], false)
  if res.2 then res.1
  else
    buildStyledNodes res.1 witnessText
      (adjustStyles innerStyleOps globalOffset witnessText.length)

/-- Source build_ref. -/
def buildRef (witnessText : String) (refOp : Span)
    (innerStyleOps : List Span) (globalOffset : Int) : Elem :=
  buildStyledNodes
    (.mk "ref" (optAttr refOp.attrs "type" ++ optAttr refOp.attrs "target") none none [])
    witnessText (adjustStyles innerStyleOps globalOffset witnessText.length)

/-- Source build_unclear. -/
def buildUnclear (witnessText : String) (unclearOp : Span)
    (innerStyleOps : List Span) (globalOffset : Int) : Elem :=
  buildStyledNodes (.mk "unclear" (optAttr unclearOp.attrs "reason") none none [])
    witnessText (adjustStyles innerStyleOps globalOffset witnessText.length)

/-- Source build_fallback_seg: a seg element typed with the kind whose
non-reserved attributes are echoed with a data- prefix. -/
def buildFallbackSeg (witnessText : String) (op : Span)
    (innerStyleOps : List Span) (globalOffset : Int) : Elem :=
  let dataAttrs := (op.attrs.filter fun p => !(reservedKeys.contains p.1)).map
    fun p => ("data-" ++ p.1, p.2)
  buildStyledNodes (.mk "seg" (("type", op.kind) :: dataAttrs) none none []) witnessText
    (adjustStyles innerStyleOps globalOffset witnessText.length)

/-- An output node of build_inline_nodes_for_line: a plain string fragment
or an element. -/
inductive Node where
  | str (s : String)
  | el (e : Elem)

/-- One child's contribution to a flush: the child element, followed by its
tail when nonempty, the emitted tail being cleared on the child. -/
def flushChunk (c : Elem) : List Node :=
  match c.tail with
  | some t => if t = "" then [Node.el c] else [Node.el (setTail c none), Node.str t]
  | none => [Node.el c]

/-- Transfer the temporary element's text and children into the node list,
as the source does after each styled flush: the text slot first when
nonempty, then each child followed by its nonempty tail. -/
def flushTmp (tmp : Elem) : List Node :=
  (match tmp.text with
   | some t => if t = "" then [] else [Node.str t]
   | none => []) ++
  tmp.children.flatMap flushChunk

/-- The textStyle ops with positive length. -/
def styleOpsOf (ops : List Span) : List Span :=
  ops.filter fun o => o.kind == "textStyle" && decide (0 < o.length)

/-- The kinds with a dedicated handler. -/
def knownKinds : List String :=
  ["abbrev", "sic", "regularised", "num", "person", "place", "ref", "unclear", "textStyle"]

/-- The sort key (offset ascending, end descending) as a total preorder. -/
def wrapperKeyLE (a b : Span) : Prop :=
  a.offset < b.offset ∨ (a.offset = b.offset ∧ b.endI ≤ a.endI)

instance : DecidableRel wrapperKeyLE := fun a b => by
  unfold wrapperKeyLE; infer_instance

/-- The wrapper ops of build_inline_nodes_for_line: the positive-length ops
of each wrapper kind, grouped in the source's concatenation order, stably
sorted by (offset ascending, end descending). -/
def wrappersOf (ops : List Span) : List Span :=
  let choiceOps := ops.filter fun o =>
    (o.kind == "abbrev" || o.kind == "sic" || o.kind == "regularised") && decide (0 < o.length)
  let numOps := ops.filter fun o => o.kind == "num" && decide (0 < o.length)
  let personOps := ops.filter fun o => o.kind == "person" && decide (0 < o.length)
  let placeOps := ops.filter fun o => o.kind == "place" && decide (0 < o.length)
  let refOps := ops.filter fun o => o.kind == "ref" && decide (0 < o.length)
  let unclearOps := ops.filter fun o => o.kind == "unclear" && decide (0 < o.length)
  let otherOps := ops.filter fun o => !(knownKinds.contains o.kind) && decide (0 < o.length)
  List.insertionSort wrapperKeyLE
    (choiceOps ++ numOps ++ personOps ++ placeOps ++ refOps ++ unclearOps ++ otherOps)

/-- The wrapper-kind dispatch of the loop body. -/
def buildWrapperEl (w : Span) (witness : String) (innerStyles : List Span) (start : Int) : Elem :=
  if w.kind = "abbrev" ∨ w.kind = "sic" ∨ w.kind = "regularised" then
    let alt :=
      if w.kind = "abbrev" then w.attrs.lookup "expansion"
      else if w.kind = "sic" then w.attrs.lookup "correction"
      else w.attrs.lookup "original"
    buildChoiceWithStyles w.kind witness (alt.getD "") innerStyles start
  else if w.kind = "num" then buildNumWithStyles witness w innerStyles start
  else if w.kind = "person" then buildPersName witness w innerStyles start
  else if w.kind = "place" then buildPlaceName witness w innerStyles start
  else if w.kind = "ref" then buildRef witness w innerStyles start
  else if w.kind = "unclear" then buildUnclear witness w innerStyles start
  else buildFallbackSeg witness w innerStyles start

/-- A fresh temporary element for a styled flush. -/
def tmpEl : Elem := .mk "tmp" [] none none []

/-- The cursor loop of build_inline_nodes_for_line over the sorted
wrappers, followed by the trailing flush: a wrapper starting before the
cursor is dropped; otherwise the pre-gap is flushed as styled plain text
(with the style ops lying between cursor and start, unrebased as in the
source), the wrapper's element is built from its witness and the style ops
lying inside it, and the cursor advances to the wrapper's end. -/
def wrapLoop (text : List Char) (styleOps : List Span) : Int → List Span → List Node
  | cursor, [] =>
    if cursor < (text.length : Int) then
      let tailStyles := styleOps.filter fun s =>
        decide (cursor ≤ s.offset) && decide (s.endI ≤ (text.length : Int))
      flushTmp (buildStyledNodes tmpEl (String.mk (pySlice text cursor text.length)) tailStyles)
    else []
  | cursor, w :: ws =>
    if w.offset < cursor then wrapLoop text styleOps cursor ws
    else
      let pre := pySlice text cursor w.offset
      let preNodes :=
        if pre.isEmpty then []
        else
          let preStyles := styleOps.filter fun s =>
            decide (cursor ≤ s.offset) && decide (s.endI ≤ w.offset)
          flushTmp (buildStyledNodes tmpEl (String.mk pre) preStyles)
      let witness := String.mk (pySlice text w.offset w.endI)
      let innerStyles := styleOps.filter fun s =>
        decide (w.offset ≤ s.offset) && decide (s.endI ≤ w.endI)
      preNodes ++ Node.el (buildWrapperEl w witness innerStyles w.offset)
        :: wrapLoop text styleOps w.endI ws

/-- Source build_inline_nodes_for_line. -/
def buildInlineNodesForLine (text : String) (ops : List Span) : List Node :=
  wrapLoop text.data (styleOpsOf ops) 0 (wrappersOf ops)

/-- The wrappers that survive the first-claimed-wins cursor policy: a
wrapper starting before the cursor is dropped, a kept wrapper moves the
cursor to its end. -/
def selectWrappers : Int → List Span → List Span
  | _, [] => []
  | cursor, w :: ws =>
    if w.offset < cursor then selectWrappers cursor ws
    else w :: selectWrappers w.endI ws

/-- Whether the node list starts with a plain string. -/
def headIsStr : List Node → Bool
  | Node.str _ :: _ => true
  | _ => false

/-- Normalized node stream: no empty string node and no two consecutive
string nodes. -/
def okRun : List Node → Bool
  | [] => true
  | Node.str s :: rest => !(s == "") && !(headIsStr rest) && okRun rest
  | Node.el _ :: rest => okRun rest

/-- Every element of the list is a childless hi run. -/
def hiOnlyB : List Elem → Bool
  | [] => true
  | c :: cs => c.tag == "hi" && c.children.isEmpty && hiOnlyB cs

mutual

/-- Concatenated text content of all textual leaves below an element: its
text slot, then each child's leaves followed by the child's tail. -/
def elemAllText : Elem → String
  | .mk _ _ t _ cs => t.getD "" ++ allTextList cs

def allTextList : List Elem → String
  | [] => ""
  | Elem.mk tg a t tl cs :: rest =>
    elemAllText (Elem.mk tg a t tl cs) ++ tl.getD "" ++ allTextList rest

end

/-- Concatenated text content of all textual leaves of a node list. -/
def nodesAllText : List Node → String
  | [] => ""
  | Node.str s :: rest => s ++ nodesAllText rest
  | Node.el e :: rest => elemAllText e ++ nodesAllText rest

/-- Tags whose content does not come from the covered line text: the
alternative-form leaf of a choice container and the attribute-derived
children of a place container. -/
def altTags : List String :=
  ["expan", "corr", "orig", "country", "region", "settlement", "district"]

mutual

/-- Concatenated leaf text restricted to witness-bearing leaves: subtrees
rooted at an alternative-form or attribute-derived tag are skipped. -/
def elemWitnessText : Elem → String
  | .mk tg _ t _ cs =>
    if altTags.contains tg then "" else t.getD "" ++ witnessTextList cs

def witnessTextList : List Elem → String
  | [] => ""
  | Elem.mk tg a t tl cs :: rest =>
    elemWitnessText (Elem.mk tg a t tl cs) ++ tl.getD "" ++ witnessTextList rest

end

/-- Witness-bearing leaf text of a node list. -/
def nodesWitnessText : List Node → String
  | [] => ""
  | Node.str s :: rest => s ++ nodesWitnessText rest
  | Node.el e :: rest => elemWitnessText e ++ nodesWitnessText rest

/-
Basic facts about strings, text accumulation, and slicing.
-/

theorem stringMkAppend (a b : List Char) : String.mk a ++ String.mk b = String.mk (a ++ b) := rfl

theorem stringMkData (s : String) : String.mk s.data = s := by
  cases s; rfl

theorem allTextList_append (xs ys : List Elem) :
    allTextList (xs ++ ys) = allTextList xs ++ allTextList ys := by
  induction xs with
  | nil => simp [allTextList]
  | cons c rest ih =>
    cases c with
    | mk tg a t tl cs =>
      simp [allTextList, ih, String.append_assoc]

theorem allTextList_addTailLast (cs : List Elem) (s : String) (h : cs ≠ []) :
    allTextList (addTailLast cs s) = allTextList cs ++ s := by
  induction cs with
  | nil => exact absurd rfl h
  | cons c rest ih =>
    cases c with
    | mk tg a t tl ch =>
      cases rest with
      | nil =>
        simp [addTailLast, allTextList, elemAllText, String.append_assoc]
      | cons c2 rest2 =>
        have h2 : c2 :: rest2 ≠ [] := by simp
        simp [addTailLast, allTextList, ih h2, String.append_assoc]

theorem elemAllText_appendText (p : Elem) (s : String) :
    elemAllText (appendText p s) = elemAllText p ++ s := by
  by_cases hs : s = ""
  · simp [appendText, hs]
  · cases p with
    | mk tg a t tl cs =>
      cases t with
      | none =>
        cases cs with
        | nil => simp [appendText, hs, elemAllText, allTextList]
        | cons c rest =>
          have h2 : c :: rest ≠ [] := by simp
          simp [appendText, hs, elemAllText, allTextList_addTailLast _ _ h2,
            String.append_assoc]
      | some t' =>
        cases cs with
        | nil => simp [appendText, hs, elemAllText, allTextList, String.append_assoc]
        | cons c rest =>
          have h2 : c :: rest ≠ [] := by simp
          simp [appendText, hs, elemAllText, allTextList_addTailLast _ _ h2,
            String.append_assoc]

theorem elemAllText_appendChild (p c : Elem) :
    elemAllText (appendChild p c) = elemAllText p ++ (elemAllText c ++ (c.tail.getD "")) := by
  cases p with
  | mk tg a t tl cs =>
    cases c with
    | mk tg2 a2 t2 tl2 cs2 =>
      simp [appendChild, elemAllText, allTextList_append, allTextList, Elem.tail,
        String.append_assoc]

theorem hiOnlyB_addTailLast (cs : List Elem) (s : String) :
    hiOnlyB (addTailLast cs s) = hiOnlyB cs := by
  induction cs with
  | nil => rfl
  | cons c rest ih =>
    cases c with
    | mk tg a t tl ch =>
      cases rest with
      | nil => simp [addTailLast, hiOnlyB, Elem.tag, Elem.children]
      | cons c2 rest2 => simp [addTailLast, hiOnlyB, ih]

theorem hiOnlyB_append (xs ys : List Elem) :
    hiOnlyB (xs ++ ys) = (hiOnlyB xs && hiOnlyB ys) := by
  induction xs with
  | nil => simp [hiOnlyB]
  | cons c rest ih => simp [hiOnlyB, ih, Bool.and_assoc]

theorem children_appendText (p : Elem) (s : String) :
    (appendText p s).children = p.children ∨
    (appendText p s).children = addTailLast p.children s := by
  by_cases hs : s = ""
  · left; simp [appendText, hs]
  · cases p with
    | mk tg a t tl cs =>
      cases t with
      | none =>
        cases cs with
        | nil => left; simp [appendText, hs, Elem.children]
        | cons c rest => right; simp [appendText, hs, Elem.children]
      | some t' =>
        cases cs with
        | nil => left; simp [appendText, hs, Elem.children]
        | cons c rest => right; simp [appendText, hs, Elem.children]

theorem hiOnlyB_appendText (p : Elem) (s : String) :
    hiOnlyB (appendText p s).children = hiOnlyB p.children := by
  rcases children_appendText p s with h | h
  · rw [h]
  · rw [h, hiOnlyB_addTailLast]

theorem children_appendChild (p c : Elem) :
    (appendChild p c).children = p.children ++ [c] := by
  cases p; rfl

theorem tag_appendText (p : Elem) (s : String) : (appendText p s).tag = p.tag := by
  by_cases hs : s = ""
  · simp [appendText, hs]
  · cases p with
    | mk tg a t tl cs =>
      cases t <;> cases cs <;> simp [appendText, hs, Elem.tag]

theorem tag_appendChild (p c : Elem) : (appendChild p c).tag = p.tag := by
  cases p; rfl

theorem tail_appendText (p : Elem) (s : String) : (appendText p s).tail = p.tail := by
  by_cases hs : s = ""
  · simp [appendText, hs]
  · cases p with
    | mk tg a t tl cs =>
      cases t <;> cases cs <;> simp [appendText, hs, Elem.tail]

theorem tail_appendChild (p c : Elem) : (appendChild p c).tail = p.tail := by
  cases p; rfl

theorem text_appendChild (p c : Elem) : (appendChild p c).text = p.text := by
  cases p; rfl

/-
Facts about slicing and cut points.
-/

theorem sliceNat_eq_nil (t : List Char) (a b : Nat) (h : b ≤ a) : sliceNat t a b = [] := by
  unfold sliceNat
  apply List.drop_eq_nil_of_le
  calc (t.take b).length ≤ b := by simp [List.length_take]
    _ ≤ a := h

theorem sliceNat_append (t : List Char) (a b c : Nat) (hab : a ≤ b) (hbc : b ≤ c) :
    sliceNat t a b ++ sliceNat t b c = sliceNat t a c := by
  unfold sliceNat
  have hsplit : t.take c = t.take b ++ (t.take c).drop b := by
    conv_lhs => rw [← List.take_append_drop b (t.take c)]
    rw [List.take_take, min_eq_left hbc]
  by_cases ha : a ≤ (t.take b).length
  · conv_rhs => rw [hsplit, List.drop_append_eq_append_drop]
    rw [Nat.sub_eq_zero_of_le ha, List.drop_zero]
  · push_neg at ha
    simp only [List.length_take] at ha
    have htb : (t.take b).length = t.length := by
      simp only [List.length_take]
      rcases lt_or_ge b t.length with h | h
      · exfalso
        have : min b t.length = b := min_eq_left (Nat.le_of_lt h)
        omega
      · exact min_eq_right h
    have hta : t.length < a := by omega
    have htb2 : t.length ≤ b := by
      simp only [List.length_take] at htb
      omega
    have h1 : (t.take b).drop a = [] := List.drop_eq_nil_of_le (by omega)
    have h2 : (t.take c).drop b = [] :=
      List.drop_eq_nil_of_le (by simp only [List.length_take]; omega)
    have h3 : (t.take c).drop a = [] :=
      List.drop_eq_nil_of_le (by simp only [List.length_take]; omega)
    rw [h1, h2, h3]
    rfl

theorem sliceNat_append_len (t : List Char) (a b : Nat) (hab : a ≤ b) :
    sliceNat t a b ++ sliceNat t b t.length = sliceNat t a t.length := by
  rcases le_or_lt b t.length with h | h
  · exact sliceNat_append t a b t.length hab h
  · have h1 : sliceNat t b t.length = [] := by
      apply List.drop_eq_nil_of_le
      simp only [List.length_take, List.take_length]
      omega
    have h2 : t.take b = t.take t.length := by
      rw [List.take_of_length_le (Nat.le_of_lt h), List.take_length]
    unfold sliceNat at h1 ⊢
    rw [h1, h2, List.append_nil]

theorem clampIdx_le (i : Int) (len : Nat) : clampIdx i len ≤ len := by
  unfold clampIdx
  omega

theorem chain_le_getLastD (l : List Nat) (a : Nat) (h : List.Chain' (· ≤ ·) (a :: l)) :
    a ≤ l.getLastD a := by
  induction l generalizing a with
  | nil => simp
  | cons b rest ih =>
    rw [List.chain'_cons] at h
    calc a ≤ b := h.1
      _ ≤ rest.getLastD b := ih b h.2
      _ = (b :: rest).getLastD a := (List.getLastD_cons a b rest).symm

/-- Concatenated segment text of a segment list. -/
def segsCharConcat (segs : List (Nat × Nat × List Char × List String)) : List Char :=
  segs.foldr (fun sg acc => sg.2.2.1 ++ acc) []

theorem segsCharConcat_consec (t : List Char) (rs : List (Int × Int × String)) :
    ∀ (l : List Nat) (a : Nat), List.Chain' (· ≤ ·) (a :: l) →
      segsCharConcat ((consecPairs (a :: l)).filterMap (segOf t rs)) =
        sliceNat t a (l.getLastD a) := by
  intro l
  induction l with
  | nil =>
    intro a _
    simp [consecPairs, segsCharConcat, List.getLastD,
      sliceNat_eq_nil t a a (Nat.le_refl a)]
  | cons b rest ih =>
    intro a h
    rw [List.chain'_cons] at h
    have hrest := ih b h.2
    have hpairs : consecPairs (a :: b :: rest) = (a, b) :: consecPairs (b :: rest) := rfl
    by_cases hab : a = b
    · subst hab
      have hseg : segOf t rs (a, a) = none := by simp [segOf]
      rw [hpairs, List.filterMap_cons_none hseg, hrest, List.getLastD_cons]
    · have hseg : segOf t rs (a, b) = some (a, b, sliceNat t a b, labelSet rs a b) := by
        simp [segOf, hab]
      rw [hpairs, List.filterMap_cons_some hseg]
      have hstep : segsCharConcat
          ((a, b, sliceNat t a b, labelSet rs a b) ::
            (consecPairs (b :: rest)).filterMap (segOf t rs)) =
          sliceNat t a b ++
            segsCharConcat ((consecPairs (b :: rest)).filterMap (segOf t rs)) := rfl
      rw [hstep, hrest, List.getLastD_cons,
        sliceNat_append t a b (rest.getLastD b) h.1 (chain_le_getLastD rest b h.2)]

theorem sorted_getLastD_eq (L : Nat) :
    ∀ (l : List Nat) (a : Nat), List.Sorted (· ≤ ·) (a :: l) → L ∈ a :: l →
      (∀ x ∈ a :: l, x ≤ L) → l.getLastD a = L := by
  intro l
  induction l with
  | nil =>
    intro a _ hmem _
    simp only [List.mem_singleton] at hmem
    simpa using hmem.symm
  | cons b rest ih =>
    intro a hsort hmem hub
    rw [List.sorted_cons] at hsort
    have hmem2 : L ∈ b :: rest := by
      rcases List.mem_cons.mp hmem with h | h
      · have hba : b ≤ L := hub b (by simp)
        have hab : a ≤ b := hsort.1 b (by simp)
        have : b = L := le_antisymm hba (h ▸ hab)
        simp [this]
      · exact h
    rw [List.getLastD_cons]
    exact ih b hsort.2 hmem2 (fun x hx => hub x (List.mem_cons_of_mem a hx))

theorem segsCharConcat_slice (t : List Char) (rs : List (Int × Int × String)) :
    segsCharConcat (sliceTextNodes t rs) = t := by
  have hkey : ∀ (raw : List Nat), 0 ∈ raw → t.length ∈ raw → (∀ x ∈ raw, x ≤ t.length) →
      segsCharConcat ((consecPairs (List.insertionSort (· ≤ ·) raw.dedup)).filterMap
        (segOf t rs)) = t := by
    intro raw h0 hL hub
    have hsorted : List.Sorted (· ≤ ·) (List.insertionSort (· ≤ ·) raw.dedup) :=
      List.sorted_insertionSort _ _
    have hmem : ∀ x : Nat, x ∈ List.insertionSort (· ≤ ·) raw.dedup ↔ x ∈ raw := by
      intro x
      rw [(List.perm_insertionSort _ _).mem_iff, List.mem_dedup]
    cases hc : List.insertionSort (· ≤ ·) raw.dedup with
    | nil =>
      exfalso
      have := (hmem 0).mpr h0
      rw [hc] at this
      cases this
    | cons a l =>
      rw [hc] at hsorted
      have hchain : List.Chain' (· ≤ ·) (a :: l) := hsorted.chain'
      have ha0 : a = 0 := by
        have h0m : (0 : Nat) ∈ a :: l := by rw [← hc, hmem]; exact h0
        rcases List.mem_cons.mp h0m with h | h
        · exact h.symm
        · have := (List.sorted_cons.mp hsorted).1 0 h
          omega
      have hlast : l.getLastD a = t.length := by
        apply sorted_getLastD_eq t.length l a hsorted
        · rw [← hc, hmem]; exact hL
        · intro x hx
          exact hub x ((hmem x).mp (hc ▸ hx))
      rw [segsCharConcat_consec t rs l a hchain, hlast, ha0]
      unfold sliceNat
      rw [List.take_length, List.drop_zero]
  show segsCharConcat
      ((consecPairs (List.insertionSort (· ≤ ·)
        ((0 :: t.length ::
          rs.flatMap fun r => [clampIdx r.1 t.length, clampIdx r.2.1 t.length]).dedup))).filterMap
        (segOf t rs)) = t
  apply hkey
  · simp
  · simp
  · intro x hx
    simp only [List.mem_cons, List.mem_flatMap, List.mem_singleton] at hx
    rcases hx with h | h | ⟨r, _, hr⟩
    · omega
    · omega
    · rcases hr with h | h | h
      · exact h ▸ clampIdx_le _ _
      · exact h ▸ clampIdx_le _ _
      · exact absurd h (List.not_mem_nil x)

/-
Facts about build_styled_nodes.
-/

theorem elemAllText_styledStep (p : Elem) (sg : Nat × Nat × List Char × List String) :
    elemAllText (styledStep p sg) = elemAllText p ++ String.mk sg.2.2.1 := by
  unfold styledStep
  by_cases h : sg.2.2.2.isEmpty
  · rw [if_pos h]
    exact elemAllText_appendText p (String.mk sg.2.2.1)
  · rw [if_neg h, elemAllText_appendChild]
    simp [elemAllText, allTextList, Elem.tail]

theorem elemAllText_styledFold :
    ∀ (segs : List (Nat × Nat × List Char × List String)) (p : Elem),
      elemAllText (segs.foldl styledStep p) =
        elemAllText p ++ String.mk (segsCharConcat segs) := by
  intro segs
  induction segs with
  | nil =>
    intro p
    have : String.mk (segsCharConcat []) = "" := rfl
    rw [List.foldl_nil, this, String.append_empty]
  | cons sg rest ih =>
    intro p
    have hconcat : String.mk (segsCharConcat (sg :: rest)) =
        String.mk sg.2.2.1 ++ String.mk (segsCharConcat rest) := by
      rw [stringMkAppend]
      rfl
    rw [List.foldl_cons, ih, elemAllText_styledStep, hconcat, String.append_assoc]

theorem elemAllText_buildStyledNodes (p : Elem) (text : String) (styleOps : List Span) :
    elemAllText (buildStyledNodes p text styleOps) = elemAllText p ++ text := by
  unfold buildStyledNodes
  by_cases h : (styleRanges styleOps).isEmpty
  · rw [if_pos h]
    exact elemAllText_appendText p text
  · rw [if_neg h, elemAllText_styledFold, segsCharConcat_slice, stringMkData]

theorem hiOnlyB_styledStep (p : Elem) (sg : Nat × Nat × List Char × List String) :
    hiOnlyB (styledStep p sg).children = hiOnlyB p.children := by
  unfold styledStep
  by_cases h : sg.2.2.2.isEmpty
  · rw [if_pos h, hiOnlyB_appendText]
  · rw [if_neg h, children_appendChild, hiOnlyB_append]
    simp [hiOnlyB, Elem.tag, Elem.children]

theorem hiOnlyB_styledFold :
    ∀ (segs : List (Nat × Nat × List Char × List String)) (p : Elem),
      hiOnlyB (segs.foldl styledStep p).children = hiOnlyB p.children := by
  intro segs
  induction segs with
  | nil => intro p; rfl
  | cons sg rest ih =>
    intro p
    rw [List.foldl_cons, ih, hiOnlyB_styledStep]

theorem hiOnlyB_buildStyledNodes (p : Elem) (text : String) (styleOps : List Span) :
    hiOnlyB (buildStyledNodes p text styleOps).children = hiOnlyB p.children := by
  unfold buildStyledNodes
  by_cases h : (styleRanges styleOps).isEmpty
  · rw [if_pos h, hiOnlyB_appendText]
  · rw [if_neg h, hiOnlyB_styledFold]

theorem tag_styledStep (p : Elem) (sg : Nat × Nat × List Char × List String) :
    (styledStep p sg).tag = p.tag := by
  unfold styledStep
  by_cases h : sg.2.2.2.isEmpty
  · rw [if_pos h, tag_appendText]
  · rw [if_neg h, tag_appendChild]

theorem tag_styledFold :
    ∀ (segs : List (Nat × Nat × List Char × List String)) (p : Elem),
      (segs.foldl styledStep p).tag = p.tag := by
  intro segs
  induction segs with
  | nil => intro p; rfl
  | cons sg rest ih =>
    intro p
    rw [List.foldl_cons, ih, tag_styledStep]

theorem tag_buildStyledNodes (p : Elem) (text : String) (styleOps : List Span) :
    (buildStyledNodes p text styleOps).tag = p.tag := by
  unfold buildStyledNodes
  by_cases h : (styleRanges styleOps).isEmpty
  · rw [if_pos h, tag_appendText]
  · rw [if_neg h, tag_styledFold]

theorem tail_styledStep (p : Elem) (sg : Nat × Nat × List Char × List String) :
    (styledStep p sg).tail = p.tail := by
  unfold styledStep
  by_cases h : sg.2.2.2.isEmpty
  · rw [if_pos h, tail_appendText]
  · rw [if_neg h, tail_appendChild]

theorem tail_styledFold :
    ∀ (segs : List (Nat × Nat × List Char × List String)) (p : Elem),
      (segs.foldl styledStep p).tail = p.tail := by
  intro segs
  induction segs with
  | nil => intro p; rfl
  | cons sg rest ih =>
    intro p
    rw [List.foldl_cons, ih, tail_styledStep]

theorem tail_buildStyledNodes (p : Elem) (text : String) (styleOps : List Span) :
    (buildStyledNodes p text styleOps).tail = p.tail := by
  unfold buildStyledNodes
  by_cases h : (styleRanges styleOps).isEmpty
  · rw [if_pos h, tail_appendText]
  · rw [if_neg h, tail_styledFold]

/-
Witness-text and normalization facts about flushes.
-/

theorem elemWitnessText_setTail (c : Elem) (tl : Option String) :
    elemWitnessText (setTail c tl) = elemWitnessText c := by
  cases c; rfl

theorem nodesWitnessText_append (xs ys : List Node) :
    nodesWitnessText (xs ++ ys) = nodesWitnessText xs ++ nodesWitnessText ys := by
  induction xs with
  | nil => simp [nodesWitnessText]
  | cons n rest ih =>
    cases n with
    | str s => simp [nodesWitnessText, ih, String.append_assoc]
    | el e => simp [nodesWitnessText, ih, String.append_assoc]

theorem witnessTextList_eq_allTextList (cs : List Elem) (h : hiOnlyB cs = true) :
    witnessTextList cs = allTextList cs := by
  induction cs with
  | nil => rfl
  | cons c rest ih =>
    cases c with
    | mk tg a t tl ch =>
      simp only [hiOnlyB, Elem.tag, Elem.children, Bool.and_eq_true, beq_iff_eq,
        List.isEmpty_iff] at h
      obtain ⟨⟨htag, hch⟩, hrest⟩ := h
      subst htag
      subst hch
      simp [witnessTextList, allTextList, elemWitnessText, elemAllText, altTags,
        ih hrest]

theorem elemWitnessText_eq_allText (e : Elem) (htag : altTags.contains e.tag = false)
    (h : hiOnlyB e.children = true) : elemWitnessText e = elemAllText e := by
  cases e with
  | mk tg a t tl cs =>
    simp only [Elem.tag] at htag
    simp only [Elem.children] at h
    rw [elemWitnessText, elemAllText, witnessTextList_eq_allTextList cs h]
    rw [show altTags.contains tg = false ↔ ¬ (altTags.contains tg = true) by simp] at htag
    rw [if_neg (by simpa using htag)]

theorem nodesWitnessText_flushChunks (cs : List Elem) (h : hiOnlyB cs = true) :
    nodesWitnessText (cs.flatMap flushChunk) = allTextList cs := by
  induction cs with
  | nil => rfl
  | cons c rest ih =>
    have hc : hiOnlyB (c :: rest) = true := h
    cases c with
    | mk tg a t tl ch =>
      simp only [hiOnlyB, Elem.tag, Elem.children, Bool.and_eq_true, beq_iff_eq,
        List.isEmpty_iff] at hc
      obtain ⟨⟨htag, hch⟩, hrest⟩ := hc
      have hewt : elemWitnessText (Elem.mk tg a t tl ch) = elemAllText (Elem.mk tg a t tl ch) := by
        apply elemWitnessText_eq_allText
        · simp [Elem.tag, htag, altTags]
        · simp [Elem.children, hch, hiOnlyB]
      rw [List.flatMap_cons, nodesWitnessText_append, ih hrest]
      cases tl with
      | none =>
        simp [flushChunk, Elem.tail, nodesWitnessText, allTextList, hewt,
          String.append_assoc]
      | some t' =>
        by_cases ht : t' = ""
        · subst ht
          simp [flushChunk, Elem.tail, nodesWitnessText, allTextList, hewt,
            String.append_assoc]
        · have h2 : elemWitnessText (Elem.mk tg a t none ch) =
              elemWitnessText (Elem.mk tg a t (some t') ch) := rfl
          simp only [flushChunk, Elem.tail, ht, nodesWitnessText, allTextList, setTail,
            if_neg ht, h2, hewt, String.append_assoc, Option.getD_some,
            String.empty_append, String.append_empty]

theorem nodesWitnessText_flushTmp (e : Elem) (h : hiOnlyB e.children = true) :
    nodesWitnessText (flushTmp e) = elemAllText e := by
  cases e with
  | mk tg a t tl cs =>
    simp only [Elem.children] at h
    rw [flushTmp, nodesWitnessText_append]
    simp only [Elem.text, Elem.children]
    rw [nodesWitnessText_flushChunks cs h, elemAllText]
    cases t with
    | none => simp [nodesWitnessText]
    | some t' =>
      by_cases ht : t' = ""
      · subst ht
        simp [nodesWitnessText]
      · simp [ht, nodesWitnessText, String.append_assoc]

theorem headIsStr_flushChunks (cs : List Elem) :
    headIsStr (cs.flatMap flushChunk) = false := by
  induction cs with
  | nil => rfl
  | cons c rest ih =>
    rw [List.flatMap_cons]
    cases htl : c.tail with
    | none =>
      rw [show flushChunk c = [Node.el c] by rw [flushChunk, htl]]
      rfl
    | some t =>
      by_cases ht : t = ""
      · rw [show flushChunk c = [Node.el c] by rw [flushChunk, htl]; simp [ht]]
        rfl
      · rw [show flushChunk c = [Node.el (setTail c none), Node.str t] by
          rw [flushChunk, htl]; simp [ht]]
        rfl

theorem okRun_flushChunks (cs : List Elem) :
    okRun (cs.flatMap flushChunk) = true := by
  induction cs with
  | nil => rfl
  | cons c rest ih =>
    rw [List.flatMap_cons]
    cases htl : c.tail with
    | none =>
      rw [show flushChunk c = [Node.el c] by rw [flushChunk, htl]]
      simpa [okRun] using ih
    | some t =>
      by_cases ht : t = ""
      · rw [show flushChunk c = [Node.el c] by rw [flushChunk, htl]; simp [ht]]
        simpa [okRun] using ih
      · rw [show flushChunk c = [Node.el (setTail c none), Node.str t] by
          rw [flushChunk, htl]; simp [ht]]
        simp [okRun, ih, ht, headIsStr_flushChunks]

theorem okRun_flushTmp (e : Elem) : okRun (flushTmp e) = true := by
  cases e with
  | mk tg a t tl cs =>
    rw [flushTmp]
    simp only [Elem.text, Elem.children]
    cases t with
    | none => simpa [okRun] using okRun_flushChunks cs
    | some t' =>
      by_cases ht : t' = ""
      · simpa [ht, okRun] using okRun_flushChunks cs
      · simp [ht, okRun, okRun_flushChunks cs, headIsStr_flushChunks cs]

theorem okRun_append (xs ys : List Node) (hx : okRun xs = true) (hy : okRun ys = true)
    (hhead : headIsStr ys = false) : okRun (xs ++ ys) = true := by
  induction xs with
  | nil => simpa using hy
  | cons n rest ih =>
    cases n with
    | el e =>
      rw [List.cons_append]
      simp only [okRun] at hx ⊢
      exact ih hx
    | str s =>
      simp only [okRun, Bool.and_eq_true, Bool.not_eq_true'] at hx
      obtain ⟨⟨hs, hrest⟩, hok⟩ := hx
      rw [List.cons_append]
      simp only [okRun, Bool.and_eq_true, Bool.not_eq_true']
      refine ⟨⟨hs, ?_⟩, ih hok⟩
      cases rest with
      | nil => simpa using hhead
      | cons m rest2 =>
        cases m with
        | str s2 => simp [headIsStr] at hrest
        | el e2 => simp [headIsStr]

theorem okRun_wrapLoop (text : List Char) (styleOps : List Span) :
    ∀ (ws : List Span) (cursor : Int), okRun (wrapLoop text styleOps cursor ws) = true := by
  intro ws
  induction ws with
  | nil =>
    intro cursor
    simp only [wrapLoop]
    by_cases h : cursor < (text.length : Int)
    · rw [if_pos h]
      exact okRun_flushTmp _
    · rw [if_neg h]
      rfl
  | cons w rest ih =>
    intro cursor
    simp only [wrapLoop]
    by_cases h : w.offset < cursor
    · rw [if_pos h]
      exact ih cursor
    · rw [if_neg h]
      apply okRun_append
      · by_cases hp : (pySlice text cursor w.offset).isEmpty
        · rw [if_pos hp]
          rfl
        · rw [if_neg hp]
          exact okRun_flushTmp _
      · simpa only [okRun] using ih w.endI
      · rfl

theorem wrapLoop_selectWrappers (text : List Char) (styleOps : List Span) :
    ∀ (ws : List Span) (cursor : Int),
      wrapLoop text styleOps cursor ws =
        wrapLoop text styleOps cursor (selectWrappers cursor ws) := by
  intro ws
  induction ws with
  | nil => intro cursor; rfl
  | cons w rest ih =>
    intro cursor
    by_cases h : w.offset < cursor
    · rw [show selectWrappers cursor (w :: rest) = selectWrappers cursor rest by
        rw [selectWrappers, if_pos h]]
      rw [show wrapLoop text styleOps cursor (w :: rest) =
          wrapLoop text styleOps cursor rest by
        simp only [wrapLoop]; rw [if_pos h]]
      exact ih cursor
    · rw [show selectWrappers cursor (w :: rest) = w :: selectWrappers w.endI rest by
        rw [selectWrappers, if_neg h]]
      simp only [wrapLoop]
      rw [if_neg h, if_neg h, ih w.endI]

/-
Witness text of the per-kind wrapper builders.
-/

theorem witnessTextList_cons (c : Elem) (rest : List Elem) :
    witnessTextList (c :: rest) =
      elemWitnessText c ++ c.tail.getD "" ++ witnessTextList rest := by
  cases c
  simp [witnessTextList, Elem.tail, String.append_assoc]

theorem elemWitnessText_unfold (e : Elem) :
    elemWitnessText e =
      if altTags.contains e.tag then "" else e.text.getD "" ++ witnessTextList e.children := by
  cases e; rfl

/-- Whether none of the four nestable place attributes is present on a span. -/
def placeAbsentB (sp : Span) : Bool :=
  placeAttrKeys.all fun a => (sp.attrs.lookup a).isNone

theorem elemWitnessText_styled_fresh (tg : String) (ats : List (String × String))
    (htag : altTags.contains tg = false) (text : String) (ops : List Span) :
    elemWitnessText (buildStyledNodes (.mk tg ats none none []) text ops) = text := by
  have h2 : hiOnlyB (buildStyledNodes (.mk tg ats none none []) text ops).children = true := by
    rw [hiOnlyB_buildStyledNodes]; rfl
  have h3 : altTags.contains (buildStyledNodes (.mk tg ats none none []) text ops).tag
      = false := by
    rw [tag_buildStyledNodes]; exact htag
  rw [elemWitnessText_eq_allText _ h3 h2, elemAllText_buildStyledNodes]
  simp [elemAllText, allTextList]

theorem eWT_buildNum (w : String) (op : Span) (styles : List Span) (g : Int) :
    elemWitnessText (buildNumWithStyles w op styles g) = w := by
  unfold buildNumWithStyles
  exact elemWitnessText_styled_fresh _ _ (by decide) _ _

theorem eWT_buildPersName (w : String) (op : Span) (styles : List Span) (g : Int) :
    elemWitnessText (buildPersName w op styles g) = w := by
  unfold buildPersName
  exact elemWitnessText_styled_fresh _ _ (by decide) _ _

theorem eWT_buildRef (w : String) (op : Span) (styles : List Span) (g : Int) :
    elemWitnessText (buildRef w op styles g) = w := by
  unfold buildRef
  exact elemWitnessText_styled_fresh _ _ (by decide) _ _

theorem eWT_buildUnclear (w : String) (op : Span) (styles : List Span) (g : Int) :
    elemWitnessText (buildUnclear w op styles g) = w := by
  unfold buildUnclear
  exact elemWitnessText_styled_fresh _ _ (by decide) _ _

theorem eWT_buildFallbackSeg (w : String) (op : Span) (styles : List Span) (g : Int) :
    elemWitnessText (buildFallbackSeg w op styles g) = w := by
  unfold buildFallbackSeg
  exact elemWitnessText_styled_fresh _ _ (by decide) _ _

theorem eWT_buildPlaceName (w : String) (op : Span) (styles : List Span) (g : Int)
    (h : placeAbsentB op = true) :
    elemWitnessText (buildPlaceName w op styles g) = w := by
  simp only [placeAbsentB, placeAttrKeys, List.all_cons, List.all_nil,
    Bool.and_eq_true, Option.isNone_iff_eq_none] at h
  obtain ⟨h1, h2, h3, h4, _⟩ := h
  unfold buildPlaceName
  simp only [placeAttrKeys, List.foldl_cons, List.foldl_nil, h1, h2, h3, h4]
  exact elemWitnessText_styled_fresh _ _ (by decide) _ _

theorem eWT_buildChoiceAbbrev (w alt : String) (styles : List Span) (g : Int) :
    elemWitnessText (buildChoiceWithStyles "abbrev" w alt styles g) = w := by
  have hb : buildChoiceWithStyles "abbrev" w alt styles g =
      Elem.mk "choice" [] none none
        [buildStyledNodes (Elem.mk "abbr" [] none none []) w (adjustStyles styles g w.length),
         Elem.mk "expan" [] (some (pyOr alt "")) none []] := rfl
  rw [hb, elemWitnessText_unfold]
  simp only [Elem.tag, Elem.text, Elem.children]
  rw [if_neg (by decide)]
  rw [witnessTextList_cons, witnessTextList_cons]
  rw [tail_buildStyledNodes]
  rw [elemWitnessText_styled_fresh _ _ (by decide)]
  rw [elemWitnessText_unfold]
  simp [Elem.tag, Elem.tail, witnessTextList, altTags]

theorem eWT_buildChoiceSic (w alt : String) (styles : List Span) (g : Int) :
    elemWitnessText (buildChoiceWithStyles "sic" w alt styles g) = w := by
  have hb : buildChoiceWithStyles "sic" w alt styles g =
      Elem.mk "choice" [] none none
        [buildStyledNodes (Elem.mk "sic" [] none none []) w (adjustStyles styles g w.length),
         Elem.mk "corr" [] (some (pyOr alt "")) none []] := rfl
  rw [hb, elemWitnessText_unfold]
  simp only [Elem.tag, Elem.text, Elem.children]
  rw [if_neg (by decide)]
  rw [witnessTextList_cons, witnessTextList_cons]
  rw [tail_buildStyledNodes]
  rw [elemWitnessText_styled_fresh _ _ (by decide)]
  rw [elemWitnessText_unfold]
  simp [Elem.tag, Elem.tail, witnessTextList, altTags]

theorem eWT_buildChoiceRegularised (w alt : String) (styles : List Span) (g : Int) :
    elemWitnessText (buildChoiceWithStyles "regularised" w alt styles g) = w := by
  have hb : buildChoiceWithStyles "regularised" w alt styles g =
      Elem.mk "choice" [] none none
        [Elem.mk "orig" [] (some (pyOr alt "")) none [],
         buildStyledNodes (Elem.mk "reg" [] none none []) w (adjustStyles styles g w.length)] := rfl
  rw [hb, elemWitnessText_unfold]
  simp only [Elem.tag, Elem.text, Elem.children]
  rw [if_neg (by decide)]
  rw [witnessTextList_cons, witnessTextList_cons]
  rw [tail_buildStyledNodes]
  rw [elemWitnessText_styled_fresh _ _ (by decide)]
  rw [show elemWitnessText (Elem.mk "orig" [] (some (pyOr alt "")) none []) = "" by
    rw [elemWitnessText_unfold]; simp [Elem.tag, altTags]]
  simp [Elem.tail, witnessTextList]

theorem eWT_buildWrapperEl (w : Span) (witness : String) (innerStyles : List Span)
    (start : Int) (hplace : w.kind = "place" → placeAbsentB w = true) :
    elemWitnessText (buildWrapperEl w witness innerStyles start) = witness := by
  unfold buildWrapperEl
  by_cases h1 : w.kind = "abbrev" ∨ w.kind = "sic" ∨ w.kind = "regularised"
  · rw [if_pos h1]
    rcases h1 with h | h | h
    · rw [h]
      simp only [reduceIte]
      exact eWT_buildChoiceAbbrev _ _ _ _
    · rw [h]
      simp only [reduceIte]
      exact eWT_buildChoiceSic _ _ _ _
    · rw [h]
      simp only [reduceIte]
      exact eWT_buildChoiceRegularised _ _ _ _
  · rw [if_neg h1]
    by_cases h2 : w.kind = "num"
    · rw [if_pos h2]; exact eWT_buildNum _ _ _ _
    · rw [if_neg h2]
      by_cases h3 : w.kind = "person"
      · rw [if_pos h3]; exact eWT_buildPersName _ _ _ _
      · rw [if_neg h3]
        by_cases h4 : w.kind = "place"
        · rw [if_pos h4]; exact eWT_buildPlaceName _ _ _ _ (hplace h4)
        · rw [if_neg h4]
          by_cases h5 : w.kind = "ref"
          · rw [if_pos h5]; exact eWT_buildRef _ _ _ _
          · rw [if_neg h5]
            by_cases h6 : w.kind = "unclear"
            · rw [if_pos h6]; exact eWT_buildUnclear _ _ _ _
            · rw [if_neg h6]; exact eWT_buildFallbackSeg _ _ _ _

theorem nodesWitnessText_flushStyled (text : String) (ops : List Span) :
    nodesWitnessText (flushTmp (buildStyledNodes tmpEl text ops)) = text := by
  rw [nodesWitnessText_flushTmp _ (by rw [hiOnlyB_buildStyledNodes]; rfl),
    elemAllText_buildStyledNodes]
  simp [tmpEl, elemAllText, allTextList]

theorem pySlice_append_len (t : List Char) (a b : Int) (hab : a ≤ b) :
    pySlice t a b ++ pySlice t b (t.length : Int) = pySlice t a (t.length : Int) := by
  unfold pySlice
  rw [Int.toNat_natCast]
  exact sliceNat_append_len t a.toNat b.toNat (Int.toNat_le_toNat hab)

theorem nodesWitnessText_wrapLoop (text : List Char) (styleOps : List Span) :
    ∀ (ws : List Span) (cursor : Int),
      (∀ w ∈ ws, 0 < w.length ∧ w.end_ = PyV.i (w.offset + w.length) ∧
        (w.kind = "place" → placeAbsentB w = true)) →
      nodesWitnessText (wrapLoop text styleOps cursor ws) =
        String.mk (pySlice text cursor (text.length : Int)) := by
  intro ws
  induction ws with
  | nil =>
    intro cursor _
    simp only [wrapLoop]
    by_cases h : cursor < (text.length : Int)
    · rw [if_pos h]
      exact nodesWitnessText_flushStyled _ _
    · rw [if_neg h]
      have hempty : pySlice text cursor (text.length : Int) = [] := by
        unfold pySlice
        apply sliceNat_eq_nil
        rw [Int.toNat_natCast]
        have := Int.toNat_le_toNat (not_lt.mp h)
        simpa using this
      rw [hempty]
      rfl
  | cons w rest ih =>
    intro cursor hws
    have hw := hws w (List.mem_cons_self w rest)
    have hrest : ∀ x ∈ rest, 0 < x.length ∧ x.end_ = PyV.i (x.offset + x.length) ∧
        (x.kind = "place" → placeAbsentB x = true) :=
      fun x hx => hws x (List.mem_cons_of_mem w hx)
    simp only [wrapLoop]
    by_cases h : w.offset < cursor
    · rw [if_pos h]
      exact ih cursor hrest
    · rw [if_neg h]
      push_neg at h
      have hend : w.endI = w.offset + w.length := by
        unfold Span.endI
        rw [hw.2.1]
      have hoe : w.offset ≤ w.endI := by
        have := hw.1
        omega
      have hcombine :
          String.mk (pySlice text cursor w.offset) ++
            (String.mk (pySlice text w.offset w.endI) ++
              String.mk (pySlice text w.endI (text.length : Int))) =
          String.mk (pySlice text cursor (text.length : Int)) := by
        rw [stringMkAppend, stringMkAppend, pySlice_append_len text w.offset w.endI hoe,
          pySlice_append_len text cursor w.offset h]
      by_cases hp : (pySlice text cursor w.offset).isEmpty
      · rw [if_pos hp]
        have hpre : pySlice text cursor w.offset = [] := List.isEmpty_iff.mp hp
        rw [List.nil_append]
        simp only [nodesWitnessText]
        rw [eWT_buildWrapperEl _ _ _ _ hw.2.2, ih w.endI hrest]
        rw [← hcombine, hpre]
        simp [String.empty_append]
      · rw [if_neg hp]
        rw [nodesWitnessText_append, nodesWitnessText_flushStyled]
        simp only [nodesWitnessText]
        rw [eWT_buildWrapperEl _ _ _ _ hw.2.2, ih w.endI hrest]
        exact hcombine

theorem mem_filter_len (ops : List Span) (p : Span → Bool) (w : Span)
    (h : w ∈ ops.filter fun o => p o && decide (0 < o.length)) :
    w ∈ ops ∧ 0 < w.length := by
  have h2 := List.mem_filter.mp h
  refine ⟨h2.1, ?_⟩
  have h3 := h2.2
  simp only [Bool.and_eq_true, decide_eq_true_eq] at h3
  exact h3.2

theorem mem_wrappersOf (ops : List Span) (w : Span) (h : w ∈ wrappersOf ops) :
    w ∈ ops ∧ 0 < w.length := by
  simp only [wrappersOf] at h
  have h2 := (List.perm_insertionSort wrapperKeyLE _).mem_iff.mp h
  rcases List.mem_append.mp h2 with h3 | h3
  rotate_left
  · exact mem_filter_len ops _ w h3
  rcases List.mem_append.mp h3 with h4 | h4
  rotate_left
  · exact mem_filter_len ops _ w h4
  rcases List.mem_append.mp h4 with h5 | h5
  rotate_left
  · exact mem_filter_len ops _ w h5
  rcases List.mem_append.mp h5 with h6 | h6
  rotate_left
  · exact mem_filter_len ops _ w h6
  rcases List.mem_append.mp h6 with h7 | h7
  rotate_left
  · exact mem_filter_len ops _ w h7
  rcases List.mem_append.mp h7 with h8 | h8
  · exact mem_filter_len ops _ w h8
  · exact mem_filter_len ops _ w h8

instance : IsTotal Span wrapperKeyLE :=
  ⟨fun a b => by
    unfold wrapperKeyLE
    rcases lt_trichotomy a.offset b.offset with h | h | h
    · exact Or.inl (Or.inl h)
    · rcases le_total b.endI a.endI with h2 | h2
      · exact Or.inl (Or.inr ⟨h, h2⟩)
      · exact Or.inr (Or.inr ⟨h.symm, h2⟩)
    · exact Or.inr (Or.inl h)⟩

instance : IsTrans Span wrapperKeyLE :=
  ⟨fun a b c hab hbc => by
    unfold wrapperKeyLE at hab hbc ⊢
    rcases hab with h1 | ⟨h1, h1e⟩ <;> rcases hbc with h2 | ⟨h2, h2e⟩
    · exact Or.inl (lt_trans h1 h2)
    · exact Or.inl (h2 ▸ h1)
    · exact Or.inl (h1 ▸ h2)
    · exact Or.inr ⟨h1.trans h2, le_trans h2e h1e⟩⟩

/-- C1 (counterexample).  As literally stated the round-trip claim fails:
with an abbrev span carrying an expansion, the expansion text is itself a
leaf of the emitted choice container, so concatenating the text of all
leaves yields the line text followed by the expansion, not the line text. -/
theorem c1_round_trip_counterexample :
    nodesAllText (buildInlineNodesForLine "etc"
        (parseCustomOps "abbrev{offset:0;length:3;expansion:and;}")) = "etcand" ∧
      ¬ ("etcand" = "etc") := by
  constructor
  · rfl
  · decide

/-- C1 (amended).  For spans whose end slot is the integer offset + length
(as every parsed span without a literal end pair satisfies) and with no
place span carrying a nested locality attribute (such a span drops its
covered text in favour of attribute-derived children), concatenating the
witness-bearing leaves of the output - all leaves except the
alternative-form leaf of a choice container and the attribute-derived
children of a place container - reproduces the original text exactly,
regardless of how the spans overlap. -/
theorem c1_round_trip_amended (text : String) (ops : List Span)
    (h : ∀ op ∈ ops, op.end_ = PyV.i (op.offset + op.length) ∧
      (op.kind = "place" → placeAbsentB op = true)) :
    nodesWitnessText (buildInlineNodesForLine text ops) = text := by
  unfold buildInlineNodesForLine
  have hcond : ∀ w ∈ wrappersOf ops, 0 < w.length ∧
      w.end_ = PyV.i (w.offset + w.length) ∧
      (w.kind = "place" → placeAbsentB w = true) := by
    intro w hw
    have hm := mem_wrappersOf ops w hw
    exact ⟨hm.2, (h w hm.1).1, (h w hm.1).2⟩
  rw [nodesWitnessText_wrapLoop text.data (styleOpsOf ops) (wrappersOf ops) 0 hcond]
  unfold pySlice
  rw [Int.toNat_natCast]
  show String.mk (sliceNat text.data 0 text.data.length) = text
  unfold sliceNat
  rw [List.take_length, List.drop_zero, stringMkData]

/-- C1 (witness): the amended round trip evaluated on a parsed abbrev span. -/
theorem c1_round_trip_witness :
    nodesWitnessText (buildInlineNodesForLine "etc"
      (parseCustomOps "abbrev{offset:0;length:3;expansion:and;}")) = "etc" :=
  c1_round_trip_amended "etc"
    (parseCustomOps "abbrev{offset:0;length:3;expansion:and;}") (by decide)

/-- C2 (code bug, evaluation at the failing input).  The trailing range
[2, 8) of "abcdefgh" is flushed with the contained style span
textStyle{offset:3;length:2;bold:true}, which covers exactly "de"
(text[3:5]); but the source passes the span's absolute offsets to the
slicer of the gap substring "cdefgh" without rebasing them, so the emitted
bold run carries "fg" - the wrong characters - instead of "de". -/
theorem c2_gap_styles_failing_input :
    buildInlineNodesForLine "abcdefgh"
        (parseCustomOps "num{offset:0;length:2;} textStyle{offset:3;length:2;bold:true;}") =
      [Node.el (Elem.mk "num" [] (some "ab") none []), Node.str "cde",
       Node.el (Elem.mk "hi" [("rend", "bold")] (some "fg") none []), Node.str "h"] ∧
      String.mk (pySlice "abcdefgh".data 3 5) = "de" :=
  ⟨rfl, rfl⟩

/-- C3 (counterexample).  Two textStyle spans over the same range, one
underline and one superscript, produce a single run whose label string is
the lexicographic sort "superscript underline", not the claimed fixed
preference order "underline superscript". -/
theorem c3_label_order_counterexample :
    buildStyledNodes tmpEl "foo"
        (parseCustomOps
          "textStyle{offset:0;length:3;underline:true;} textStyle{offset:0;length:3;superscript:true;}") =
      Elem.mk "tmp" [] none none
        [Elem.mk "hi" [("rend", "superscript underline")] (some "foo") none []] ∧
      ¬ ("superscript underline" = "underline superscript") := by
  constructor
  · rfl
  · decide

/-- Children with their tail slots cleared: a run's tail holds the plain
text that follows it, not content of the run itself. -/
def stripTails (cs : List Elem) : List Elem :=
  cs.map fun c => setTail c none

/-- The run a segment of slice_text_nodes gives rise to: none for an
unlabelled segment, and for a labelled one the single childless hi element
holding exactly that segment's text, whose rend attribute is the space-join
of the lexicographically sorted label set. -/
def hiRunOf (seg : Nat × Nat × List Char × List String) : Option Elem :=
  if seg.2.2.2.isEmpty then none
  else some (Elem.mk "hi"
    [("rend", " ".intercalate (List.insertionSort pyStrLe seg.2.2.2))]
    (some (String.mk seg.2.2.1)) none [])

theorem stripTails_addTailLast (cs : List Elem) (s : String) :
    stripTails (addTailLast cs s) = stripTails cs := by
  induction cs with
  | nil => rfl
  | cons c rest ih =>
    cases c with
    | mk tg a t tl ch =>
      cases rest with
      | nil => simp [addTailLast, stripTails, setTail]
      | cons c2 rest2 =>
        simp only [addTailLast, stripTails, List.map_cons]
        have h2 := ih
        simp only [stripTails] at h2
        rw [h2, List.map_cons]

theorem stripTails_appendText (p : Elem) (s : String) :
    stripTails (appendText p s).children = stripTails p.children := by
  rcases children_appendText p s with h | h
  · rw [h]
  · rw [h, stripTails_addTailLast]

theorem stripTails_styledFold :
    ∀ (segs : List (Nat × Nat × List Char × List String)) (p : Elem),
      stripTails (segs.foldl styledStep p).children =
        stripTails p.children ++ segs.filterMap hiRunOf := by
  intro segs
  induction segs with
  | nil =>
    intro p
    simp
  | cons sg rest ih =>
    intro p
    rw [List.foldl_cons, ih]
    by_cases h : sg.2.2.2.isEmpty
    · rw [show styledStep p sg = appendText p (String.mk sg.2.2.1) by
        rw [styledStep, if_pos h]]
      rw [stripTails_appendText,
        List.filterMap_cons_none (by rw [hiRunOf, if_pos h])]
    · rw [show styledStep p sg = appendChild p
          (Elem.mk "hi"
            [("rend", " ".intercalate (List.insertionSort pyStrLe sg.2.2.2))]
            (some (String.mk sg.2.2.1)) none []) by
        rw [styledStep, if_neg h]]
      rw [children_appendChild,
        List.filterMap_cons_some (by rw [hiRunOf, if_neg h])]
      simp [stripTails, setTail]

theorem filterMap_hiRunOf_nil_ranges (t : List Char) :
    (sliceTextNodes t []).filterMap hiRunOf = [] := by
  rw [List.filterMap_eq_nil_iff]
  intro sg hsg
  simp only [sliceTextNodes] at hsg
  obtain ⟨p, _, hp⟩ := List.mem_filterMap.mp hsg
  rw [segOf] at hp
  by_cases he : p.1 = p.2
  · rw [if_pos he] at hp
    cases hp
  · rw [if_neg he] at hp
    injection hp with hp2
    rw [← hp2, hiRunOf]
    have : labelSet [] p.1 p.2 = [] := rfl
    simp [this]

/-- C3 (amended).  For every text and every style-op list, the runs the
builder emits (their trailing plain-text tails aside) are exactly one
childless labelled run per labelled segment of slice_text_nodes, in order:
each run holds exactly that segment's text, and its label string is the
space-join of the lexicographically sorted set of the covering spans'
label strings (each span's own labels joined in the fixed preference
order) - never nested runs; in particular bold and italic spans over the
same range yield one run labelled "bold italic". -/
theorem c3_label_union_amended :
    (∀ (text : String) (ops : List Span),
      stripTails (buildStyledNodes tmpEl text ops).children =
        (sliceTextNodes text.data (styleRanges ops)).filterMap hiRunOf) ∧
    (∀ (text : String) (ops : List Span),
      hiOnlyB (buildStyledNodes tmpEl text ops).children = true) ∧
    buildStyledNodes tmpEl "foo"
        (parseCustomOps
          "textStyle{offset:0;length:3;bold:true;} textStyle{offset:0;length:3;italic:true;}") =
      Elem.mk "tmp" [] none none
        [Elem.mk "hi" [("rend", "bold italic")] (some "foo") none []] := by
  refine ⟨?_, ?_, rfl⟩
  · intro text ops
    unfold buildStyledNodes
    by_cases h : (styleRanges ops).isEmpty
    · rw [if_pos h, stripTails_appendText, List.isEmpty_iff.mp h,
        filterMap_hiRunOf_nil_ranges]
      rfl
    · rw [if_neg h, stripTails_styledFold]
      rfl
  · intro text ops
    rw [hiOnlyB_buildStyledNodes]
    rfl

/-- C4.  Wrappers are processed in (offset ascending, end descending)
order: the wrapper list handed to the cursor loop is sorted under that key;
a wrapper starting before the cursor contributes no node at all, so the
loop output equals the loop over only the surviving wrappers; and on the
spec's concrete overlap example the output is a single container for the
earlier span covering text[0:5], with no trace of the later span. -/
theorem c4_overlap_drop :
    (∀ (text : List Char) (styleOps ws : List Span) (cursor : Int),
      wrapLoop text styleOps cursor ws =
        wrapLoop text styleOps cursor (selectWrappers cursor ws)) ∧
    (∀ ops : List Span, List.Sorted wrapperKeyLE (wrappersOf ops)) ∧
    buildInlineNodesForLine "abcde"
        (parseCustomOps "unclear{offset:0;length:5;} unclear{offset:2;length:3;}") =
      [Node.el (Elem.mk "unclear" [] (some "abcde") none [])] := by
  refine ⟨?_, ?_, rfl⟩
  · intro text styleOps ws cursor
    exact wrapLoop_selectWrappers text styleOps ws cursor
  · intro ops
    unfold wrappersOf
    exact List.sorted_insertionSort _ _

/-- C9.  The node stream returned by the overlay builder is always
normalized: it contains no empty plain-string node and no two consecutive
plain-string nodes. -/
theorem c9_normalized_stream (text : String) (ops : List Span) :
    okRun (buildInlineNodesForLine text ops) = true :=
  okRun_wrapLoop text.data (styleOpsOf ops) (wrappersOf ops) 0

/-
Claims about the choice and placeName builders.
-/

/-- C5.  The regularised choice puts the literal original-attribute value
first, unstyled, and the styled witness second - the exact reverse of
abbrev and sic, where the styled witness comes first and the literal
alternative second. -/
theorem c5_regularised_asymmetry (witness alt : String) (styles : List Span) (g : Int) :
    buildChoiceWithStyles "regularised" witness alt styles g =
        Elem.mk "choice" [] none none
          [Elem.mk "orig" [] (some alt) none [],
           buildStyledNodes (Elem.mk "reg" [] none none []) witness
             (adjustStyles styles g witness.length)] ∧
      buildChoiceWithStyles "abbrev" witness alt styles g =
        Elem.mk "choice" [] none none
          [buildStyledNodes (Elem.mk "abbr" [] none none []) witness
             (adjustStyles styles g witness.length),
           Elem.mk "expan" [] (some alt) none []] ∧
      buildChoiceWithStyles "sic" witness alt styles g =
        Elem.mk "choice" [] none none
          [buildStyledNodes (Elem.mk "sic" [] none none []) witness
             (adjustStyles styles g witness.length),
           Elem.mk "corr" [] (some alt) none []] := by
  have hor : pyOr alt "" = alt := by
    unfold pyOr
    by_cases h : alt = ""
    · rw [if_pos h, h]
    · rw [if_neg h]
  refine ⟨?_, ?_, ?_⟩
  · rw [show buildChoiceWithStyles "regularised" witness alt styles g =
        Elem.mk "choice" [] none none
          [Elem.mk "orig" [] (some (pyOr alt "")) none [],
           buildStyledNodes (Elem.mk "reg" [] none none []) witness
             (adjustStyles styles g witness.length)] from rfl, hor]
  · rw [show buildChoiceWithStyles "abbrev" witness alt styles g =
        Elem.mk "choice" [] none none
          [buildStyledNodes (Elem.mk "abbr" [] none none []) witness
             (adjustStyles styles g witness.length),
           Elem.mk "expan" [] (some (pyOr alt "")) none []] from rfl, hor]
  · rw [show buildChoiceWithStyles "sic" witness alt styles g =
        Elem.mk "choice" [] none none
          [buildStyledNodes (Elem.mk "sic" [] none none []) witness
             (adjustStyles styles g witness.length),
           Elem.mk "corr" [] (some (pyOr alt "")) none []] from rfl, hor]

/-- Appending a list of children one by one. -/
def appendChildren (e : Elem) (l : List Elem) : Elem :=
  l.foldl appendChild e

theorem appendChildren_mk (tg : String) (a : List (String × String))
    (t tl : Option String) (cs l : List Elem) :
    appendChildren (Elem.mk tg a t tl cs) l = Elem.mk tg a t tl (cs ++ l) := by
  induction l generalizing cs with
  | nil => simp [appendChildren]
  | cons c rest ih =>
    rw [show appendChildren (Elem.mk tg a t tl cs) (c :: rest) =
        appendChildren (Elem.mk tg a t tl (cs ++ [c])) rest from rfl, ih]
    simp

theorem placeFold_spec (ats : List (String × String)) :
    ∀ (keys : List String) (e : Elem) (b : Bool),
      List.foldl (fun (acc : Elem × Bool) a =>
          match ats.lookup a with
          | some v => (appendChild acc.1 (Elem.mk a [] (some v) none []), true)
          | none => acc) (e, b) keys =
        (appendChildren e (keys.filterMap fun a =>
            (ats.lookup a).map fun v => Elem.mk a [] (some v) none []),
         b || !(keys.filterMap fun a =>
            (ats.lookup a).map fun v => Elem.mk a [] (some v) none []).isEmpty) := by
  intro keys
  induction keys with
  | nil =>
    intro e b
    simp [appendChildren]
  | cons k rest ih =>
    intro e b
    rw [List.foldl_cons, List.filterMap_cons]
    cases h : ats.lookup k with
    | none =>
      simp only [h, Option.map_none']
      exact ih e b
    | some v =>
      simp only [h, Option.map_some']
      rw [show (List.foldl (fun (acc : Elem × Bool) a =>
          match ats.lookup a with
          | some v => (appendChild acc.1 (Elem.mk a [] (some v) none []), true)
          | none => acc) (appendChild e (Elem.mk k [] (some v) none []), true) rest) =
        (appendChildren (appendChild e (Elem.mk k [] (some v) none []))
            (rest.filterMap fun a =>
              (ats.lookup a).map fun vv => Elem.mk a [] (some vv) none []),
         true || !(rest.filterMap fun a =>
              (ats.lookup a).map fun vv => Elem.mk a [] (some vv) none []).isEmpty)
        from ih _ true]
      simp [appendChildren]

/-- C6.  The placeName builder emits either one unstyled child element per
present nested attribute - country, region, settlement, district, in that
fixed order, each holding the literal attribute value, with the witness
text contributing nothing - or, when none of the four is present, the
styled witness text; never both. -/
theorem c6_place_nesting (witness : String) (op : Span) (styles : List Span) (g : Int) :
    buildPlaceName witness op styles g =
      if (placeAttrKeys.filterMap fun a =>
            (op.attrs.lookup a).map fun v => Elem.mk a [] (some v) none []).isEmpty then
        buildStyledNodes (Elem.mk "placeName" [] none none []) witness
          (adjustStyles styles g witness.length)
      else
        Elem.mk "placeName" [] none none
          (placeAttrKeys.filterMap fun a =>
            (op.attrs.lookup a).map fun v => Elem.mk a [] (some v) none []) := by
  unfold buildPlaceName
  rw [placeFold_spec op.attrs placeAttrKeys (Elem.mk "placeName" [] none none []) false]
  by_cases hL : (placeAttrKeys.filterMap fun a =>
      (op.attrs.lookup a).map fun v => Elem.mk a [] (some v) none []).isEmpty
  · have hnil : (placeAttrKeys.filterMap fun a =>
        (op.attrs.lookup a).map fun v => Elem.mk a [] (some v) none []) = [] :=
      List.isEmpty_iff.mp hL
    rw [if_pos hL]
    simp only [hnil, Bool.false_or, List.isEmpty_nil, Bool.not_true, Bool.false_eq_true,
      if_false, appendChildren_mk]
    simp
  · rw [if_neg hL]
    have hb : (false || !(placeAttrKeys.filterMap fun a =>
        (op.attrs.lookup a).map fun v => Elem.mk a [] (some v) none []).isEmpty) = true := by
      simp [hL]
    rw [hb]
    simp only [if_true, appendChildren_mk]
    simp

/-
Claims about the annotation parser.
-/

theorem buildOp_end (k body : String) :
    (buildOp k body).end_ =
      match (kvOf body).lookup "end" with
      | some v => PyV.s v
      | none => PyV.i ((buildOp k body).offset + (buildOp k body).length) := rfl

/-- C7 (amended).  parse is total and best-effort: offset and length fall
back to 0 on any value that fails integer parsing (including a missing
one), and every span whose end slot is an integer - that is, every span
whose body carries no literal end pair - has end = offset + length; in
particular parse("num{offset:x;length:3;}") yields exactly one span with
offset 0, length 3, end 3. -/
theorem c7_numeric_fallback_amended :
    (∀ (s : String) (sp : Span), sp ∈ parseCustomOps s →
      ∀ n : Int, sp.end_ = PyV.i n → n = sp.offset + sp.length) ∧
    parseCustomOps "num{offset:x;length:3;}" = [⟨"num", 0, 3, PyV.i 3, []⟩] := by
  constructor
  · intro s sp hmem n hend
    simp only [parseCustomOps, List.mem_map] at hmem
    obtain ⟨m, _, rfl⟩ := hmem
    rw [buildOp_end] at hend
    cases h : (kvOf m.2).lookup "end" with
    | some v =>
      rw [h] at hend
      cases hend
    | none =>
      rw [h] at hend
      injection hend with hend2
      exact hend2.symm
  · rfl

/-- C7 (counterexample).  A literal end pair in the span body overwrites
the computed end slot of the op dict with the raw string, so the parsed
span's end is not offset + length. -/
theorem c7_end_clobber_counterexample :
    parseCustomOps "a{offset:1;length:2;end:9;}" = [⟨"a", 1, 2, PyV.s "9", []⟩] ∧
      ¬ (PyV.s "9" = PyV.i (1 + 2)) := by
  constructor
  · rfl
  · decide

/-- C7 (witness): the amended end invariant applied to a parsed span. -/
theorem c7_numeric_fallback_witness : (3 : Int) = 0 + 3 :=
  c7_numeric_fallback_amended.1 "num{offset:x;length:3;}" ⟨"num", 0, 3, PyV.i 3, []⟩
    (by decide) 3 rfl

theorem lookup_cons_self (k v : String) (l : List (String × String)) :
    List.lookup k ((k, v) :: l) = some v := by
  simp [List.lookup]

theorem lookup_cons_ne (a : String) (pr : String × String) (l : List (String × String))
    (h : a ≠ pr.1) : List.lookup a (pr :: l) = List.lookup a l := by
  obtain ⟨k, v⟩ := pr
  simp only [List.lookup]
  simp only [show (a == k) = false from beq_eq_false_iff_ne.mpr h]

theorem lookup_map_styleNorm (l : List (String × String)) (key : String)
    (hkey : key ∈ styleKeys) :
    (l.map fun p =>
        if styleKeys.contains p.1 then
          (p.1, if parseBool p.2 then "true" else "false")
        else p).lookup key =
      (l.lookup key).map fun raw => if parseBool raw then "true" else "false" := by
  induction l with
  | nil => rfl
  | cons p rest ih =>
    obtain ⟨k1, v1⟩ := p
    rw [List.map_cons]
    by_cases h : key = k1
    · subst h
      have hc : styleKeys.contains (key, v1).1 = true := List.elem_eq_true_of_mem hkey
      have hif : (if styleKeys.contains (key, v1).1 = true then
            ((key, v1).1, if parseBool (key, v1).2 = true then "true" else "false")
          else (key, v1)) =
          (key, if parseBool v1 = true then "true" else "false") := if_pos hc
      rw [hif, lookup_cons_self, lookup_cons_self]
      rfl
    · have hfst : key ≠ (if styleKeys.contains (k1, v1).1 = true then
            ((k1, v1).1, if parseBool (k1, v1).2 = true then "true" else "false")
          else (k1, v1)).1 := by
        by_cases hc : styleKeys.contains (k1, v1).1 = true
        · rw [if_pos hc]
          exact h
        · rw [if_neg hc]
          exact h
      rw [lookup_cons_ne key _ _ hfst, lookup_cons_ne key (k1, v1) rest h, ih]

theorem lookup_filter_reserved (l : List (String × String)) (key : String)
    (h : reservedKeys.contains key = false) :
    (l.filter fun p => !(reservedKeys.contains p.1)).lookup key = l.lookup key := by
  induction l with
  | nil => rfl
  | cons p rest ih =>
    obtain ⟨k1, v1⟩ := p
    rw [List.filter_cons]
    by_cases hk : reservedKeys.contains (k1, v1).1 = true
    · rw [if_neg (by simp only [hk]; decide)]
      have hne : key ≠ (k1, v1).1 := by
        intro he
        rw [← he, h] at hk
        cases hk
      rw [ih, lookup_cons_ne key (k1, v1) rest hne]
    · have hk2 : reservedKeys.contains (k1, v1).1 = false := by
        revert hk
        cases reservedKeys.contains (k1, v1).1 <;> simp
      rw [if_pos (by simp only [hk2]; decide)]
      by_cases he : key = k1
      · subst he
        rw [lookup_cons_self, lookup_cons_self]
      · rw [lookup_cons_ne key (k1, v1) _ he, lookup_cons_ne key (k1, v1) rest he, ih]

/-- C8 (amended).  Boolean normalization is keyed to the matched tag name:
for every kind{body} match whose tag is textStyle, each of the five boolean
keys present among the resulting attributes holds exactly the parse_bool
normalization of the raw recorded value - the literal "true" when the raw
value, trimmed and lower-cased, is one of 1, true, yes, y, and the literal
"false" otherwise.  (A body pair kind:textStyle relabels a span without
triggering normalization, which refutes the claim as stated over the
span's kind field.) -/
theorem c8_style_bool_amended :
    (∀ (s k b : String), (k, b) ∈ parseMatches s → k = "textStyle" →
      ∀ key, key ∈ styleKeys →
        (buildOp k b).attrs.lookup key =
          ((kvOf b).lookup key).map fun raw => if parseBool raw then "true" else "false") ∧
    parseBool " YES " = true ∧ parseBool "nope" = false := by
  refine ⟨?_, by decide, by decide⟩
  intro s k b _ hk key hkey
  subst hk
  have hattrs : (buildOp "textStyle" b).attrs =
      ((kvOf b).filter fun p => !(reservedKeys.contains p.1)).map fun p =>
        if styleKeys.contains p.1 then
          (p.1, if parseBool p.2 then "true" else "false")
        else p := rfl
  have hres : reservedKeys.contains key = false := by
    have hall : ∀ x ∈ styleKeys, reservedKeys.contains x = false := by decide
    exact hall key hkey
  rw [hattrs, lookup_map_styleNorm _ _ hkey, lookup_filter_reserved _ _ hres]

/-- C8 (counterexample).  A body pair kind:textStyle on a match whose tag
is not textStyle relabels the span as textStyle without normalizing the
five boolean keys, so a present bold attribute can hold a value other than
the literals "true" and "false". -/
theorem c8_kind_clobber_counterexample :
    parseCustomOps "foo{kind:textStyle;bold:yes;}" =
      [⟨"textStyle", 0, 0, PyV.i 0, [("bold", "yes")]⟩] ∧
      ¬ ("yes" = "true" ∨ "yes" = "false") := by
  constructor
  · rfl
  · decide

/-- C8 (witness): normalization evaluated on a textStyle match. -/
theorem c8_style_bool_witness :
    (buildOp "textStyle" "offset:0;length:1;bold: YES ;").attrs.lookup "bold" =
      ((kvOf "offset:0;length:1;bold: YES ;").lookup "bold").map
        fun raw => if parseBool raw then "true" else "false" :=
  c8_style_bool_amended.1 "textStyle{offset:0;length:1;bold: YES ;}" "textStyle"
    "offset:0;length:1;bold: YES ;" (by decide) rfl "bold" (by decide)

theorem tryMatchInner_none_of_no_semi (cs : List Char) (h : ¬ ';' ∈ cs) :
    tryMatchInner cs = none := by
  unfold tryMatchInner
  by_cases hw : (cs.takeWhile isWordChar).isEmpty
  · rw [if_pos hw]
  · rw [if_neg hw]
    split
    · rename_i r3 heq
      split
      · rename_i rem heq2
        exfalso
        have hmem : (';' : Char) ∈ r3 := by
          have hin : (';' : Char) ∈ r3.dropWhile (fun c => c ≠ ';') := by
            rw [heq2]
            exact List.mem_cons_self _ _
          exact (List.dropWhile_sublist _).subset hin
        have hcs : (';' : Char) ∈ cs := by
          have h1 : (';' : Char) ∈ (cs.dropWhile isWordChar).dropWhile isSpaceChar := by
            rw [heq]
            exact List.mem_cons_of_mem _ hmem
          exact (List.dropWhile_sublist _).subset
            ((List.dropWhile_sublist _).subset h1)
        exact h hcs
      · rfl
    · rfl

theorem innerScanF_no_semi : ∀ (fuel : Nat) (cs : List Char), ¬ ';' ∈ cs →
    innerScanF fuel cs = [] := by
  intro fuel
  induction fuel with
  | zero => intro cs _; rfl
  | succ n ih =>
    intro cs h
    cases cs with
    | nil => rfl
    | cons c rest =>
      rw [innerScanF, tryMatchInner_none_of_no_semi (c :: rest) h]
      exact ih rest (fun hm => h (List.mem_cons_of_mem c hm))

/-- C10.  Only key:value pairs terminated by a semicolon are recorded: a
body containing no semicolon at all yields no attribute, and a final pair
not followed by a semicolon before the closing brace is silently ignored -
parse("num{offset:1;length:2;type:card}") records offset and length but no
type attribute. -/
theorem c10_semicolon_required :
    (∀ body : String, ¬ ';' ∈ body.data → kvOf body = []) ∧
    parseCustomOps "num{offset:1;length:2;type:card}" =
      [⟨"num", 1, 2, PyV.i 3, []⟩] := by
  constructor
  · intro body h
    have hs : kvMatches body = [] := innerScanF_no_semi body.data.length body.data h
    rw [kvOf, hs]
    rfl
  · rfl

/-- C10 (witness): a semicolon-free body records nothing. -/
theorem c10_semicolon_witness : kvOf "a:1" = [] :=
  c10_semicolon_required.1 "a:1" (by decide)
